import Mathlib

/-!
Shallow embedding of the two source files of the
Financial-Portfolio-Optimization repository:

* `portfolio_optimization_utils.py` — `optimize_portfolio`
* `random_portfolios_gen.py` — `return_portfolios`

Numbers are modelled by `ℚ`.  The two external numeric black boxes of the
source — the convex QP solver `cvxopt.solvers.qp` and the square-root
routine `np.sqrt` — are passed in as explicit parameters (`solver`,
`sqrtF`), exactly as the source treats them: opaque routines whose outputs
are consumed by the surrounding bookkeeping logic.  The ambient randomness
of `np.random.random` is likewise passed in as a draw oracle `rand`.
-/

/-- Dot product of two coordinate lists, `np.dot(a, b)` on 1-D arrays. -/
def dot (a b : List ℚ) : ℚ :=
  (List.zipWith (· * ·) a b).sum

/-- Matrix–vector product `np.dot(m, w)` for a row-major matrix. -/
def matVec (m : List (List ℚ)) (w : List ℚ) : List ℚ :=
  m.map (fun row => dot row w)

/-- Quadratic form `np.dot(w.T, np.dot(m, w))`, i.e. `wᵀ·m·w`. -/
def quadForm (m : List (List ℚ)) (w : List ℚ) : ℚ :=
  dot w (matVec m w)

/-- A pandas DataFrame of per-period returns: one column per asset, one
row per observation period.  `ncols` is the number of assets (the column
axis length), `rows` the observation rows. -/
structure ReturnsDF where
  ncols : ℕ
  rows : List (List ℚ)
deriving DecidableEq, Repr

/-- Column `j` of the return table, as read by pandas column-wise
reductions. -/
def colVals (df : ReturnsDF) (j : ℕ) : List ℚ :=
  df.rows.map (fun r => r.getD j 0)

/-- Arithmetic mean of a list, `pandas.Series.mean`. -/
def meanQ (l : List ℚ) : ℚ :=
  l.sum / l.length

/-- Line 29 of `portfolio_optimization_utils.py`:
`mu = returns_df.mean().values` — per-asset arithmetic means. -/
def meanVec (df : ReturnsDF) : List ℚ :=
  (List.range df.ncols).map (fun j => meanQ (colVals df j))

/-- One entry of the pandas sample covariance (denominator `n - 1`):
`returns_df.cov().values[j][k]`. -/
def covEntry (df : ReturnsDF) (j k : ℕ) : ℚ :=
  (df.rows.map (fun r =>
      (r.getD j 0 - meanQ (colVals df j)) * (r.getD k 0 - meanQ (colVals df k)))).sum
    / ((df.rows.length : ℚ) - 1)

/-- Line 30 of `portfolio_optimization_utils.py`:
`sigma = returns_df.cov().values` — the sample covariance matrix. -/
def covMat (df : ReturnsDF) : List (List ℚ) :=
  (List.range df.ncols).map (fun j => (List.range df.ncols).map (fun k => covEntry df j k))

/-- Minimum of a nonempty coordinate list, `mu.min()`.  The `[]` case is
unreachable after the input check of `optimize_portfolio`. -/
def listMin : List ℚ → ℚ
  | [] => 0
  | x :: xs => xs.foldl min x

/-- Maximum of a nonempty coordinate list, `mu.max()`. -/
def listMax : List ℚ → ℚ
  | [] => 0
  | x :: xs => xs.foldl max x

/-- Line 86 of `portfolio_optimization_utils.py`:
`np.linspace(min_return, max_return, num)` — `num` equally spaced values
from `a` to `b` inclusive (exact in rational arithmetic). -/
def linspace (a b : ℚ) (num : ℕ) : List ℚ :=
  (List.range num).map (fun (i : ℕ) => a + (b - a) * (i : ℚ) / ((num - 1 : ℕ) : ℚ))

/-- The data handed to one `solvers.qp(P, q, G, h, A_qp, b_qp)` call. -/
structure QPInput where
  P : List (List ℚ)
  q : List ℚ
  G : List (List ℚ)
  h : List ℚ
  A : List (List ℚ)
  b : List ℚ
deriving DecidableEq

/-- Outcome of one solver call, as observed by the source (lines
104–130): an `'optimal'` status with a solution vector `sol['x']`, a
non-optimal status (silently skipped), or a raised `ValueError`
(silently skipped). -/
inductive QPResult where
  | optimal (x : List ℚ)
  | nonOptimal
  | valueError
deriving DecidableEq

/-- The `weight_bounds` argument: a Python tuple of numbers, a Python
list of `(min, max)` pairs, or any other object. -/
inductive WeightBounds where
  | tup (vals : List ℚ)
  | lst (pairs : List (ℚ × ℚ))
  | other
deriving DecidableEq

/-- Lines 52–68 of `portfolio_optimization_utils.py`: turn
`weight_bounds` into per-asset lower/upper bound vectors, falling back to
`(0.0, 1.0)` with a warning for malformed input.  The boolean records
whether the fallback warning was printed. -/
def resolveBounds (n : ℕ) : WeightBounds → List ℚ × List ℚ × Bool
  | .tup vals =>
      if vals.length = 2 then
        (List.replicate n (vals.getD 0 0), List.replicate n (vals.getD 1 0), false)
      else
        (List.replicate n 0, List.replicate n 1, true)
  | .lst pairs =>
      if pairs.length = n then
        (pairs.map Prod.fst, pairs.map Prod.snd, false)
      else
        (List.replicate n 0, List.replicate n 1, true)
  | .other => (List.replicate n 0, List.replicate n 1, true)

/-- The `weight_bounds` inputs that match neither accepted shape of
lines 55 and 59 (a 2-element tuple, or a list with one pair per asset). -/
def malformedWB (n : ℕ) : WeightBounds → Bool
  | .tup vals => vals.length ≠ 2
  | .lst pairs => pairs.length ≠ n
  | .other => true

/-- The `n × n` identity matrix `np.eye(n)`. -/
def identM (n : ℕ) : List (List ℚ) :=
  (List.range n).map (fun i => (List.range n).map (fun j => if i = j then 1 else 0))

/-- Entrywise negation of a matrix, `-np.eye(n)`. -/
def negM (m : List (List ℚ)) : List (List ℚ) :=
  m.map (List.map Neg.neg)

/-- Lines 35–102 of `portfolio_optimization_utils.py`: the QP handed to
the solver for one target return `t` — objective matrix `sigma`, zero
linear term, box constraints `G·w ≤ h` from the resolved bounds, and
equalities `sum w = 1`, `mu·w = t`. -/
def qpFor (sigma : List (List ℚ)) (mu minw maxw : List ℚ) (n : ℕ) (t : ℚ) : QPInput :=
  { P := sigma
    q := List.replicate n 0
    G := negM (identM n) ++ identM n
    h := minw.map Neg.neg ++ maxw
    A := [List.replicate n 1, mu]
    b := [1, t] }

/-- A frontier row / distinguished-portfolio record: realized return,
risk, Sharpe ratio and the weight vector (lines 107–117).  The Sharpe
value lives in `WithBot ℚ` so that `⊥` models the float `-np.inf`. -/
structure PPoint where
  ret : ℚ
  risk : ℚ
  sharpe : WithBot ℚ
  weights : List ℚ
deriving DecidableEq

/-- Lines 107–117 of `portfolio_optimization_utils.py`: build the record
for one optimal solver solution `x`: return `wᵀμ`, risk
`sqrt(wᵀΣw)`, and guarded Sharpe ratio
`(return - risk_free_rate) / risk if risk > 0 else -inf`. -/
def mkFrontierPoint (mu : List ℚ) (sigma : List (List ℚ)) (rf : ℚ) (sqrtF : ℚ → ℚ)
    (x : List ℚ) : PPoint :=
  let ret := dot x mu
  let risk := sqrtF (quadForm sigma x)
  { ret := ret
    risk := risk
    sharpe := if 0 < risk then ((ret - rf) / risk : ℚ) else ⊥
    weights := x }

/-- The mutable state of the sweep loop (lines 88–91): the frontier
accumulated so far, the tracked `max_sharpe_portfolio`, and the running
`max_sharpe_ratio` (initially `-np.inf`, i.e. `⊥`). -/
structure SweepState where
  frontier : List PPoint
  best : Option PPoint
  bestSharpe : WithBot ℚ
deriving DecidableEq

/-- One iteration of the `for r_target in target_returns` loop (lines
93–130): solve the QP; on an optimal status append the point to the
frontier and update the running Sharpe maximum by a strictly-greater
comparison; otherwise leave the state unchanged. -/
def sweepStep (solver : QPInput → QPResult) (sqrtF : ℚ → ℚ) (mu : List ℚ)
    (sigma : List (List ℚ)) (minw maxw : List ℚ) (n : ℕ) (rf : ℚ)
    (st : SweepState) (t : ℚ) : SweepState :=
  match solver (qpFor sigma mu minw maxw n t) with
  | .optimal x =>
      let p := mkFrontierPoint mu sigma rf sqrtF x
      let st1 : SweepState := { st with frontier := st.frontier ++ [p] }
      if st.bestSharpe < p.sharpe then { st1 with best := some p, bestSharpe := p.sharpe }
      else st1
  | .nonOptimal => st
  | .valueError => st

/-- The point (if any) that target `t` contributes to the frontier. -/
def pointOf (solver : QPInput → QPResult) (sqrtF : ℚ → ℚ) (mu : List ℚ)
    (sigma : List (List ℚ)) (minw maxw : List ℚ) (n : ℕ) (rf : ℚ) (t : ℚ) :
    Option PPoint :=
  match solver (qpFor sigma mu minw maxw n t) with
  | .optimal x => some (mkFrontierPoint mu sigma rf sqrtF x)
  | .nonOptimal => none
  | .valueError => none

/-- One step of a pandas `idxmin` scan over the `risk` column: a later
row replaces the running row only when its risk is strictly smaller, so
the first occurrence of the minimum wins. -/
def minRiskStep (acc : Option PPoint) (p : PPoint) : Option PPoint :=
  match acc with
  | none => some p
  | some q => if p.risk < q.risk then some p else acc

/-- One step of a pandas `idxmax` scan over the `sharpe` column: a later
row replaces the running row only when its Sharpe ratio is strictly
larger, so the first occurrence of the maximum wins. -/
def maxSharpeStep (acc : Option PPoint) (p : PPoint) : Option PPoint :=
  match acc with
  | none => some p
  | some q => if q.sharpe < p.sharpe then some p else acc

/-- Line 140, `efficient_frontier_df['risk'].idxmin()` followed by
`.loc`: the row of the first occurrence of the minimal risk. -/
def idxminRisk (l : List PPoint) : Option PPoint :=
  l.foldl minRiskStep none

/-- Line 151, `efficient_frontier_df['sharpe'].idxmax()` followed by
`.loc`: the row of the first occurrence of the maximal Sharpe ratio. -/
def idxmaxSharpe (l : List PPoint) : Option PPoint :=
  l.foldl maxSharpeStep none

/-- Lines 119–126 in isolation: the update of the running pair
`(max_sharpe_portfolio, max_sharpe_ratio)` by one feasible point, using
the strictly-greater comparison of line 119. -/
def trackStep (acc : Option PPoint × WithBot ℚ) (p : PPoint) : Option PPoint × WithBot ℚ :=
  if acc.2 < p.sharpe then (some p, p.sharpe) else acc

/-- The dictionary returned by `optimize_portfolio` (lines 160–164),
with the extra boolean recording whether the malformed-bounds warning of
line 66 was printed. -/
@[ext]
structure OptResult where
  efficient_frontier : List PPoint
  max_sharpe_portfolio : Option PPoint
  min_variance_portfolio : Option PPoint
  boundsWarning : Bool
deriving DecidableEq

/-- Lines 27–164 of `portfolio_optimization_utils.py`: the body of
`optimize_portfolio` after the input check — compute `mu` and `sigma`,
resolve the bounds, sweep 100 equally spaced target returns building the
frontier and tracking the running Sharpe maximum, then derive the
min-variance portfolio by a post-hoc `idxmin` scan and, if the tracking
found nothing while the frontier is non-empty, the max-Sharpe portfolio
by a post-hoc `idxmax` scan. -/
def optimizeRun (solver : QPInput → QPResult) (sqrtF : ℚ → ℚ) (df : ReturnsDF)
    (risk_free_rate : ℚ) (weight_bounds : WeightBounds) : OptResult :=
  let mu := meanVec df
  let sigma := covMat df
  let n := mu.length
  let rb := resolveBounds n weight_bounds
  let target_returns := linspace (listMin mu) (listMax mu) 100
  let final := target_returns.foldl
    (sweepStep solver sqrtF mu sigma rb.1 rb.2.1 n risk_free_rate) ⟨[], none, ⊥⟩
  let ef := final.frontier
  let minv : Option PPoint := if ef.isEmpty then none else idxminRisk ef
  let maxs : Option PPoint :=
    match final.best with
    | some p => some p
    | none => if ef.isEmpty then none else idxmaxSharpe ef
  { efficient_frontier := ef
    max_sharpe_portfolio := maxs
    min_variance_portfolio := minv
    boundsWarning := rb.2.2 }

/-- Lines 8–164 of `portfolio_optimization_utils.py`:
`optimize_portfolio(returns_df, risk_free_rate, weight_bounds)`.
The line-23 check `returns_df.empty or len(returns_df) < 2` (pandas
`.empty` is true when either axis has length 0) prints a diagnostic and
returns `None`; that failure is modelled by `none`. -/
def optimize_portfolio (solver : QPInput → QPResult) (sqrtF : ℚ → ℚ) (df : ReturnsDF)
    (risk_free_rate : ℚ) (weight_bounds : WeightBounds) : Option OptResult :=
  if df.rows.length = 0 ∨ df.ncols = 0 ∨ df.rows.length < 2 then none
  else some (optimizeRun solver sqrtF df risk_free_rate weight_bounds)

/-- The list `target_returns` of line 86: 100 equally spaced target
returns from `mu.min()` to `mu.max()`. -/
def sweepTargets (df : ReturnsDF) : List ℚ :=
  linspace (listMin (meanVec df)) (listMax (meanVec df)) 100

/-- The frontier that the sweep of `optimize_portfolio` assembles: one
point per target return whose solve came back optimal, in sweep order. -/
def frontierPts (solver : QPInput → QPResult) (sqrtF : ℚ → ℚ) (df : ReturnsDF)
    (rf : ℚ) (wb : WeightBounds) : List PPoint :=
  (sweepTargets df).filterMap
    (pointOf solver sqrtF (meanVec df) (covMat df)
      (resolveBounds (meanVec df).length wb).1
      (resolveBounds (meanVec df).length wb).2.1
      (meanVec df).length rf)

/-- The `expected_returns` argument of `return_portfolios`: either a
pandas Series (asset names paired with values, lines 21–23) or a plain
ordered array (default names `Asset_1, Asset_2, …`, line 25). -/
inductive ExpRet where
  | series (items : List (String × ℚ))
  | arr (vals : List ℚ)

/-- The numeric contents of `expected_returns`. -/
def ExpRet.vals : ExpRet → List ℚ
  | .series items => items.map Prod.snd
  | .arr vals => vals

/-- Lines 22 and 25 of `random_portfolios_gen.py`: the asset names —
the Series index, or the default `Asset_{i+1}` names. -/
def ExpRet.names : ExpRet → List String
  | .series items => items.map Prod.fst
  | .arr vals => (List.range vals.length).map (fun i => "Asset_" ++ toString (i + 1))

/-- A numpy 2-D array with its shape, modelling `cov_matrix` and its
`.shape` attribute. -/
structure MatQ where
  nrows : ℕ
  ncols : ℕ
  data : List (List ℚ)
deriving DecidableEq

/-- Line 48 of `random_portfolios_gen.py`:
`weights /= np.sum(weights)` — divide every coordinate of the draw by
the draw's own sum, with no guard against a zero sum. -/
def normalizeW (d : List ℚ) : List ℚ :=
  d.map (fun x => x / d.sum)

/-- Line 67, `np.array(stock_weights).T` for a rectangular list of `n`
rows of length `k`: the `k × n` transpose (the empty list's transpose is
the empty 1-D array, whose length is 0). -/
def transposeQ (l : List (List ℚ)) : List (List ℚ) :=
  match l with
  | [] => []
  | r :: _ => (List.range r.length).map (fun j => l.map (fun row => row.getD j 0))

/-- Lines 6–79 of `random_portfolios_gen.py`:
`return_portfolios(expected_returns, cov_matrix, num_portfolios)`.
`rand i` models the draw `np.random.random(num_assets)` of iteration
`i`, and `sqrtF` models `np.sqrt`.  The output table is the ordered list
of `(column name, column values)` pairs of the returned DataFrame.

Two failure paths are modelled by `none`:
* the shape check of lines 32–34 — the source intends to print a
  diagnostic and `return None`, but its `print(..., file=sys.stderr)`
  names `sys` without importing it, so at runtime the branch raises
  `NameError`; either way no table is produced;
* the per-asset indexing `weights_per_asset[i]` of lines 69–70, which
  raises `IndexError` whenever the transpose has fewer rows than there
  are assets (as happens for `num_portfolios = 0` with at least one
  asset). -/
def return_portfolios (rand : ℕ → List ℚ) (sqrtF : ℚ → ℚ) (expected_returns : ExpRet)
    (cov_matrix : MatQ) (num_portfolios : ℕ) : Option (List (String × List ℚ)) :=
  let expected := expected_returns.vals
  let asset_names := expected_returns.names
  let num_assets := expected.length
  if (cov_matrix.nrows, cov_matrix.ncols) ≠ (num_assets, num_assets) then none
  else
    let stock_weights := (List.range num_portfolios).map (fun i => normalizeW (rand i))
    let port_returns := stock_weights.map (fun w => dot w expected)
    let port_volatility := stock_weights.map (fun w => sqrtF (quadForm cov_matrix.data w))
    let weights_per_asset := transposeQ stock_weights
    if weights_per_asset.length < asset_names.length then none
    else
      some (("Returns", port_returns) :: ("Volatility", port_volatility) ::
        asset_names.enum.map (fun p => (p.2 ++ "Weight", weights_per_asset.getD p.1 [])))

theorem sweepStep_frontier (solver : QPInput → QPResult) (sqrtF : ℚ → ℚ) (mu : List ℚ)
    (sigma : List (List ℚ)) (minw maxw : List ℚ) (n : ℕ) (rf : ℚ)
    (st : SweepState) (t : ℚ) :
    (sweepStep solver sqrtF mu sigma minw maxw n rf st t).frontier
      = st.frontier ++ (pointOf solver sqrtF mu sigma minw maxw n rf t).toList := by
  unfold sweepStep pointOf
  cases solver (qpFor sigma mu minw maxw n t) <;> simp
  split <;> rfl

theorem sweepStep_track (solver : QPInput → QPResult) (sqrtF : ℚ → ℚ) (mu : List ℚ)
    (sigma : List (List ℚ)) (minw maxw : List ℚ) (n : ℕ) (rf : ℚ)
    (st : SweepState) (t : ℚ) :
    ((sweepStep solver sqrtF mu sigma minw maxw n rf st t).best,
      (sweepStep solver sqrtF mu sigma minw maxw n rf st t).bestSharpe)
      = (pointOf solver sqrtF mu sigma minw maxw n rf t).elim
          (st.best, st.bestSharpe) (trackStep (st.best, st.bestSharpe)) := by
  unfold sweepStep pointOf trackStep
  cases solver (qpFor sigma mu minw maxw n t) <;> simp
  split <;> rfl

theorem sweep_frontier_eq (solver : QPInput → QPResult) (sqrtF : ℚ → ℚ) (mu : List ℚ)
    (sigma : List (List ℚ)) (minw maxw : List ℚ) (n : ℕ) (rf : ℚ) :
    ∀ (ts : List ℚ) (st : SweepState),
      (ts.foldl (sweepStep solver sqrtF mu sigma minw maxw n rf) st).frontier
        = st.frontier ++ ts.filterMap (pointOf solver sqrtF mu sigma minw maxw n rf)
  | [], st => by simp
  | t :: ts, st => by
      rw [List.foldl_cons, sweep_frontier_eq solver sqrtF mu sigma minw maxw n rf ts,
        sweepStep_frontier, List.filterMap_cons]
      cases pointOf solver sqrtF mu sigma minw maxw n rf t <;> simp

theorem sweep_track_eq (solver : QPInput → QPResult) (sqrtF : ℚ → ℚ) (mu : List ℚ)
    (sigma : List (List ℚ)) (minw maxw : List ℚ) (n : ℕ) (rf : ℚ) :
    ∀ (ts : List ℚ) (st : SweepState),
      ((ts.foldl (sweepStep solver sqrtF mu sigma minw maxw n rf) st).best,
        (ts.foldl (sweepStep solver sqrtF mu sigma minw maxw n rf) st).bestSharpe)
        = (ts.filterMap (pointOf solver sqrtF mu sigma minw maxw n rf)).foldl
            trackStep (st.best, st.bestSharpe)
  | [], st => by simp
  | t :: ts, st => by
      rw [List.foldl_cons, sweep_track_eq solver sqrtF mu sigma minw maxw n rf ts,
        List.filterMap_cons]
      have h := sweepStep_track solver sqrtF mu sigma minw maxw n rf st t
      cases hp : pointOf solver sqrtF mu sigma minw maxw n rf t with
      | none =>
          rw [hp] at h
          simp only [Option.elim] at h
          rw [h]
      | some p =>
          rw [hp] at h
          simp only [Option.elim] at h
          rw [h, List.foldl_cons]

theorem trackFold_seed : ∀ (l : List PPoint) (p : PPoint),
    ∃ q, l.foldl trackStep (some p, p.sharpe) = (some q, q.sharpe) ∧
      p.sharpe ≤ q.sharpe ∧
      ∃ l1 l2, p :: l = l1 ++ q :: l2 ∧
        (∀ r ∈ l1, r.sharpe < q.sharpe) ∧ (∀ r ∈ l2, r.sharpe ≤ q.sharpe)
  | [], p => ⟨p, rfl, le_rfl, [], [], rfl, by simp, by simp⟩
  | x :: xs, p => by
      rw [List.foldl_cons]
      by_cases hlt : p.sharpe < x.sharpe
      · have hstep : trackStep (some p, p.sharpe) x = (some x, x.sharpe) := by
          simp [trackStep, hlt]
        rw [hstep]
        obtain ⟨q, hfold, hxq, l1, l2, hsplit, hbef, haft⟩ := trackFold_seed xs x
        refine ⟨q, hfold, le_of_lt (lt_of_lt_of_le hlt hxq), p :: l1, l2, ?_, ?_, haft⟩
        · rw [List.cons_append, ← hsplit]
        · intro r hr
          rcases List.mem_cons.mp hr with h | h
          · exact h ▸ lt_of_lt_of_le hlt hxq
          · exact hbef r h
      · have hstep : trackStep (some p, p.sharpe) x = (some p, p.sharpe) := by
          simp [trackStep, hlt]
        rw [hstep]
        obtain ⟨q, hfold, hpq, l1, l2, hsplit, hbef, haft⟩ := trackFold_seed xs p
        have hxle : x.sharpe ≤ p.sharpe := not_lt.mp hlt
        cases l1 with
        | nil =>
            rw [List.nil_append] at hsplit
            injection hsplit with h1 h2
            subst h1
            subst h2
            refine ⟨p, hfold, le_rfl, [], x :: xs, rfl, by simp, ?_⟩
            intro r hr
            rcases List.mem_cons.mp hr with h | h
            · exact h ▸ hxle
            · exact haft r h
        | cons a l1t =>
            rw [List.cons_append] at hsplit
            injection hsplit with h1 h2
            have hpq2 : p.sharpe < q.sharpe := by
              have := hbef a (List.mem_cons_self a l1t)
              rw [← h1] at this
              exact this
            refine ⟨q, hfold, hpq, p :: x :: l1t, l2, ?_, ?_, haft⟩
            · rw [List.cons_append, List.cons_append, ← h2]
            · intro r hr
              rcases List.mem_cons.mp hr with h | h
              · exact h ▸ hpq2
              · rcases List.mem_cons.mp h with h3 | h3
                · exact h3 ▸ lt_of_le_of_lt hxle hpq2
                · exact hbef r (List.mem_cons_of_mem a h3)

theorem trackFold_start : ∀ l : List PPoint,
    (l.foldl trackStep (none, ⊥) = (none, ⊥) ∧ ∀ r ∈ l, r.sharpe = ⊥) ∨
    (∃ q, l.foldl trackStep (none, ⊥) = (some q, q.sharpe) ∧ ⊥ < q.sharpe ∧
      ∃ l1 l2, l = l1 ++ q :: l2 ∧
        (∀ r ∈ l1, r.sharpe < q.sharpe) ∧ (∀ r ∈ l2, r.sharpe ≤ q.sharpe))
  | [] => Or.inl ⟨rfl, by simp⟩
  | x :: xs => by
      rw [List.foldl_cons]
      by_cases hbot : (⊥ : WithBot ℚ) < x.sharpe
      · have hstep : trackStep (none, ⊥) x = (some x, x.sharpe) := by
          simp [trackStep, hbot]
        rw [hstep]
        obtain ⟨q, hfold, hxq, l1, l2, hsplit, hbef, haft⟩ := trackFold_seed xs x
        exact Or.inr ⟨q, hfold, lt_of_lt_of_le hbot hxq, l1, l2, hsplit, hbef, haft⟩
      · have hxbot : x.sharpe = ⊥ := le_bot_iff.mp (not_lt.mp hbot)
        have hstep : trackStep (none, ⊥) x = (none, ⊥) := by
          simp [trackStep, hbot]
        rw [hstep]
        rcases trackFold_start xs with ⟨hfold, hall⟩ | ⟨q, hfold, hq, l1, l2, hsplit, hbef, haft⟩
        · refine Or.inl ⟨hfold, ?_⟩
          intro r hr
          rcases List.mem_cons.mp hr with h | h
          · exact h ▸ hxbot
          · exact hall r h
        · refine Or.inr ⟨q, hfold, hq, x :: l1, l2, by rw [List.cons_append, hsplit], ?_, haft⟩
          intro r hr
          rcases List.mem_cons.mp hr with h | h
          · rw [h, hxbot]
            exact hq
          · exact hbef r h

theorem minFold_seed : ∀ (l : List PPoint) (p : PPoint),
    ∃ q, l.foldl minRiskStep (some p) = some q ∧ q.risk ≤ p.risk ∧
      ∃ l1 l2, p :: l = l1 ++ q :: l2 ∧
        (∀ r ∈ l1, q.risk < r.risk) ∧ (∀ r ∈ l2, q.risk ≤ r.risk)
  | [], p => ⟨p, rfl, le_rfl, [], [], rfl, by simp, by simp⟩
  | x :: xs, p => by
      rw [List.foldl_cons]
      by_cases hlt : x.risk < p.risk
      · have hstep : minRiskStep (some p) x = some x := by
          simp [minRiskStep, hlt]
        rw [hstep]
        obtain ⟨q, hfold, hxq, l1, l2, hsplit, hbef, haft⟩ := minFold_seed xs x
        refine ⟨q, hfold, le_of_lt (lt_of_le_of_lt hxq hlt), p :: l1, l2, ?_, ?_, haft⟩
        · rw [List.cons_append, ← hsplit]
        · intro r hr
          rcases List.mem_cons.mp hr with h | h
          · exact h ▸ lt_of_le_of_lt hxq hlt
          · exact hbef r h
      · have hstep : minRiskStep (some p) x = some p := by
          simp [minRiskStep, hlt]
        rw [hstep]
        obtain ⟨q, hfold, hpq, l1, l2, hsplit, hbef, haft⟩ := minFold_seed xs p
        have hxle : p.risk ≤ x.risk := not_lt.mp hlt
        cases l1 with
        | nil =>
            rw [List.nil_append] at hsplit
            injection hsplit with h1 h2
            subst h1
            subst h2
            refine ⟨p, hfold, le_rfl, [], x :: xs, rfl, by simp, ?_⟩
            intro r hr
            rcases List.mem_cons.mp hr with h | h
            · exact h ▸ hxle
            · exact haft r h
        | cons a l1t =>
            rw [List.cons_append] at hsplit
            injection hsplit with h1 h2
            have hpq2 : q.risk < p.risk := by
              have := hbef a (List.mem_cons_self a l1t)
              rw [← h1] at this
              exact this
            refine ⟨q, hfold, hpq, p :: x :: l1t, l2, ?_, ?_, haft⟩
            · rw [List.cons_append, List.cons_append, ← h2]
            · intro r hr
              rcases List.mem_cons.mp hr with h | h
              · exact h ▸ hpq2
              · rcases List.mem_cons.mp h with h3 | h3
                · exact h3 ▸ lt_of_lt_of_le hpq2 hxle
                · exact hbef r (List.mem_cons_of_mem a h3)

theorem idxminRisk_cons (x : PPoint) (xs : List PPoint) :
    idxminRisk (x :: xs) = xs.foldl minRiskStep (some x) := by
  unfold idxminRisk
  rw [List.foldl_cons]
  rfl

theorem idxmaxSharpe_cons (x : PPoint) (xs : List PPoint) :
    idxmaxSharpe (x :: xs) = xs.foldl maxSharpeStep (some x) := by
  unfold idxmaxSharpe
  rw [List.foldl_cons]
  rfl

theorem maxFold_allbot : ∀ (xs : List PPoint) (x : PPoint), x.sharpe = ⊥ →
    (∀ r ∈ xs, r.sharpe = ⊥) → xs.foldl maxSharpeStep (some x) = some x
  | [], _, _, _ => rfl
  | y :: ys, x, hx, hall => by
      rw [List.foldl_cons]
      have hy : y.sharpe = ⊥ := hall y (List.mem_cons_self y ys)
      have hstep : maxSharpeStep (some x) y = some x := by
        show (if x.sharpe < y.sharpe then some y else some x) = some x
        rw [hx, hy]
        simp
      rw [hstep]
      exact maxFold_allbot ys x hx (fun r hr => hall r (List.mem_cons_of_mem y hr))

theorem optimizeRun_frontier (solver : QPInput → QPResult) (sqrtF : ℚ → ℚ)
    (df : ReturnsDF) (rf : ℚ) (wb : WeightBounds) :
    (optimizeRun solver sqrtF df rf wb).efficient_frontier
      = frontierPts solver sqrtF df rf wb := by
  simp only [optimizeRun, frontierPts, sweepTargets]
  rw [sweep_frontier_eq]
  simp

theorem optimizeRun_minvar (solver : QPInput → QPResult) (sqrtF : ℚ → ℚ)
    (df : ReturnsDF) (rf : ℚ) (wb : WeightBounds) :
    (optimizeRun solver sqrtF df rf wb).min_variance_portfolio
      = (if (frontierPts solver sqrtF df rf wb).isEmpty then none
         else idxminRisk (frontierPts solver sqrtF df rf wb)) := by
  simp only [optimizeRun, frontierPts, sweepTargets]
  rw [sweep_frontier_eq]
  simp

theorem optimizeRun_maxsharpe (solver : QPInput → QPResult) (sqrtF : ℚ → ℚ)
    (df : ReturnsDF) (rf : ℚ) (wb : WeightBounds) :
    (optimizeRun solver sqrtF df rf wb).max_sharpe_portfolio
      = (match ((frontierPts solver sqrtF df rf wb).foldl trackStep (none, ⊥)).1 with
         | some p => some p
         | none =>
             if (frontierPts solver sqrtF df rf wb).isEmpty then none
             else idxmaxSharpe (frontierPts solver sqrtF df rf wb)) := by
  simp only [optimizeRun, frontierPts, sweepTargets]
  have ht := sweep_track_eq solver sqrtF (meanVec df) (covMat df)
    (resolveBounds (meanVec df).length wb).1 (resolveBounds (meanVec df).length wb).2.1
    (meanVec df).length rf
    (linspace (listMin (meanVec df)) (listMax (meanVec df)) 100) ⟨[], none, ⊥⟩
  have hb := congrArg Prod.fst ht
  simp only [] at hb
  rw [sweep_frontier_eq, hb]
  simp

theorem optimizeRun_warn (solver : QPInput → QPResult) (sqrtF : ℚ → ℚ)
    (df : ReturnsDF) (rf : ℚ) (wb : WeightBounds) :
    (optimizeRun solver sqrtF df rf wb).boundsWarning
      = (resolveBounds (meanVec df).length wb).2.2 := by
  unfold optimizeRun
  rfl

/-- C5: for every input return table that is empty or has fewer than 2
observation rows, `optimize_portfolio` fails (prints the line-24
diagnostic and returns `None`) and produces no result — no partial
frontier, no distinguished portfolios. -/
theorem c5_insufficient_data_returns_none (solver : QPInput → QPResult) (sqrtF : ℚ → ℚ)
    (df : ReturnsDF) (rf : ℚ) (wb : WeightBounds)
    (h : df.rows.length = 0 ∨ df.ncols = 0 ∨ df.rows.length < 2) :
    optimize_portfolio solver sqrtF df rf wb = none := by
  unfold optimize_portfolio
  rw [if_pos h]

theorem c5_witness :
    ((⟨1, [[1]]⟩ : ReturnsDF).rows.length = 0 ∨ (⟨1, [[1]]⟩ : ReturnsDF).ncols = 0 ∨
      (⟨1, [[1]]⟩ : ReturnsDF).rows.length < 2) ∧
    optimize_portfolio (fun _ => QPResult.nonOptimal) id ⟨1, [[1]]⟩ 0 WeightBounds.other
      = none :=
  ⟨by decide,
    c5_insufficient_data_returns_none (fun _ => QPResult.nonOptimal) id ⟨1, [[1]]⟩ 0
      WeightBounds.other (by decide)⟩

/-- C6: when the covariance matrix's shape differs from
`(asset_count, asset_count)`, `return_portfolios` produces no sample
table.  In the source this branch is intended to print a diagnostic and
return `None`, but its `print(..., file=sys.stderr)` references `sys`
without importing it, so at runtime the branch raises `NameError`
instead of the documented diagnostic; either way no table is produced.
The model realizes the intended `return None`. -/
theorem c6_dimension_mismatch_no_table (rand : ℕ → List ℚ) (sqrtF : ℚ → ℚ)
    (er : ExpRet) (cov : MatQ) (n : ℕ)
    (h : (cov.nrows, cov.ncols) ≠ (er.vals.length, er.vals.length)) :
    return_portfolios rand sqrtF er cov n = none := by
  unfold return_portfolios
  rw [if_pos h]

theorem c6_witness :
    (((⟨1, 1, [[1]]⟩ : MatQ).nrows, (⟨1, 1, [[1]]⟩ : MatQ).ncols)
        ≠ ((ExpRet.arr [1, 2]).vals.length, (ExpRet.arr [1, 2]).vals.length)) ∧
    return_portfolios (fun _ => [1, 1]) id (ExpRet.arr [1, 2]) ⟨1, 1, [[1]]⟩ 5 = none :=
  ⟨by decide,
    c6_dimension_mismatch_no_table (fun _ => [1, 1]) id (ExpRet.arr [1, 2]) ⟨1, 1, [[1]]⟩ 5
      (by decide)⟩

theorem sum_map_div (l : List ℚ) (c : ℚ) :
    (l.map (fun x => x / c)).sum = l.sum / c := by
  induction l with
  | nil => simp
  | cons x xs ih => simp [ih, add_div]

/-- C10: the generator's weight vector is the raw draw divided by its
own sum, with no zero-sum guard; for every draw with non-negative
coordinates and strictly positive sum, the normalized weights are
non-negative and sum exactly to 1. -/
theorem c10_normalize_nonneg_sums_to_one (d : List ℚ)
    (h0 : ∀ x ∈ d, 0 ≤ x) (hs : 0 < d.sum) :
    (∀ x ∈ normalizeW d, 0 ≤ x) ∧ (normalizeW d).sum = 1 := by
  constructor
  · intro x hx
    rw [normalizeW] at hx
    obtain ⟨y, hy, rfl⟩ := List.mem_map.mp hx
    exact div_nonneg (h0 y hy) (le_of_lt hs)
  · rw [normalizeW, sum_map_div]
    exact div_self (ne_of_gt hs)

theorem c10_witness :
    (∀ x ∈ ([1] : List ℚ), 0 ≤ x) ∧ 0 < ([1] : List ℚ).sum ∧
    ((∀ x ∈ normalizeW [1], 0 ≤ x) ∧ (normalizeW [1]).sum = 1) :=
  ⟨by decide, by simp, c10_normalize_nonneg_sums_to_one [1] (by decide) (by simp)⟩

theorem resolveBounds_default (n : ℕ) :
    resolveBounds n (WeightBounds.tup [0, 1])
      = (List.replicate n 0, List.replicate n 1, false) := by
  simp [resolveBounds]

theorem resolveBounds_malformed (n : ℕ) (wb : WeightBounds)
    (h : malformedWB n wb = true) :
    resolveBounds n wb = (List.replicate n 0, List.replicate n 1, true) := by
  cases wb with
  | tup vals =>
      simp only [malformedWB, decide_eq_true_eq] at h
      simp [resolveBounds, h]
  | lst pairs =>
      simp only [malformedWB, decide_eq_true_eq] at h
      simp [resolveBounds, h]
  | other => simp [resolveBounds]

/-- C7: malformed `weight_bounds` (neither a 2-element tuple nor a list
with one pair per asset) never makes the optimizer fail: the bounds fall
back to `[0, 1]` for every asset, the non-fatal warning of line 66 is
emitted, and the call otherwise behaves exactly like a call made with
bounds `(0, 1)`. -/
theorem c7_malformed_bounds_fallback (solver : QPInput → QPResult) (sqrtF : ℚ → ℚ)
    (df : ReturnsDF) (rf : ℚ) (wb : WeightBounds)
    (h : malformedWB (meanVec df).length wb = true) :
    resolveBounds (meanVec df).length wb
        = (List.replicate (meanVec df).length 0, List.replicate (meanVec df).length 1, true) ∧
    optimize_portfolio solver sqrtF df rf wb
        = Option.map (fun r => { r with boundsWarning := true })
            (optimize_portfolio solver sqrtF df rf (WeightBounds.tup [0, 1])) := by
  have hrb := resolveBounds_malformed (meanVec df).length wb h
  refine ⟨hrb, ?_⟩
  have hfp : frontierPts solver sqrtF df rf wb
      = frontierPts solver sqrtF df rf (WeightBounds.tup [0, 1]) := by
    unfold frontierPts
    rw [hrb, resolveBounds_default]
  have hrun : optimizeRun solver sqrtF df rf wb
      = { optimizeRun solver sqrtF df rf (WeightBounds.tup [0, 1]) with
          boundsWarning := true } := by
    ext1
    · rw [optimizeRun_frontier, hfp]
      show frontierPts solver sqrtF df rf (WeightBounds.tup [0, 1])
        = (optimizeRun solver sqrtF df rf (WeightBounds.tup [0, 1])).efficient_frontier
      rw [optimizeRun_frontier]
    · rw [optimizeRun_maxsharpe, hfp]
      show _ = (optimizeRun solver sqrtF df rf (WeightBounds.tup [0, 1])).max_sharpe_portfolio
      rw [optimizeRun_maxsharpe]
    · rw [optimizeRun_minvar, hfp]
      show _ = (optimizeRun solver sqrtF df rf (WeightBounds.tup [0, 1])).min_variance_portfolio
      rw [optimizeRun_minvar]
    · rw [optimizeRun_warn, hrb]
  unfold optimize_portfolio
  by_cases hbad : df.rows.length = 0 ∨ df.ncols = 0 ∨ df.rows.length < 2
  · rw [if_pos hbad, if_pos hbad]
    rfl
  · rw [if_neg hbad, if_neg hbad]
    simp only [Option.map_some']
    exact congrArg some hrun

theorem c7_witness :
    malformedWB ((meanVec ⟨2, [[1, 0], [0, 1]]⟩).length) (WeightBounds.tup [0, 1, 2]) = true ∧
    (resolveBounds ((meanVec ⟨2, [[1, 0], [0, 1]]⟩).length) (WeightBounds.tup [0, 1, 2])
        = (List.replicate ((meanVec ⟨2, [[1, 0], [0, 1]]⟩).length) 0,
           List.replicate ((meanVec ⟨2, [[1, 0], [0, 1]]⟩).length) 1, true) ∧
      optimize_portfolio (fun _ => QPResult.nonOptimal) id ⟨2, [[1, 0], [0, 1]]⟩ 0
          (WeightBounds.tup [0, 1, 2])
        = Option.map (fun r => { r with boundsWarning := true })
            (optimize_portfolio (fun _ => QPResult.nonOptimal) id ⟨2, [[1, 0], [0, 1]]⟩ 0
              (WeightBounds.tup [0, 1]))) :=
  ⟨by decide,
    c7_malformed_bounds_fallback (fun _ => QPResult.nonOptimal) id ⟨2, [[1, 0], [0, 1]]⟩ 0
      (WeightBounds.tup [0, 1, 2]) (by decide)⟩

theorem optimize_portfolio_some (solver : QPInput → QPResult) (sqrtF : ℚ → ℚ)
    (df : ReturnsDF) (rf : ℚ) (wb : WeightBounds) (res : OptResult)
    (h : optimize_portfolio solver sqrtF df rf wb = some res) :
    res = optimizeRun solver sqrtF df rf wb := by
  unfold optimize_portfolio at h
  by_cases hbad : df.rows.length = 0 ∨ df.ncols = 0 ∨ df.rows.length < 2
  · rw [if_pos hbad] at h
    exact absurd h (by simp)
  · rw [if_neg hbad] at h
    injection h with h1
    exact h1.symm

/-- C1: for every successful call with a non-empty frontier, the
returned max-Sharpe portfolio is a frontier point whose Sharpe ratio is
strictly above every earlier swept point's and at least every later
one's — i.e. the globally largest Sharpe ratio with ties broken
first-seen by the strictly-greater sweep comparison. -/
theorem c1_max_sharpe_global_first_seen (solver : QPInput → QPResult) (sqrtF : ℚ → ℚ)
    (df : ReturnsDF) (rf : ℚ) (wb : WeightBounds) (res : OptResult)
    (h : optimize_portfolio solver sqrtF df rf wb = some res)
    (hne : res.efficient_frontier ≠ []) :
    ∃ p l1 l2, res.max_sharpe_portfolio = some p ∧
      res.efficient_frontier = l1 ++ p :: l2 ∧
      (∀ q ∈ l1, q.sharpe < p.sharpe) ∧
      (∀ q ∈ l2, q.sharpe ≤ p.sharpe) := by
  have hres := optimize_portfolio_some solver sqrtF df rf wb res h
  subst hres
  rw [optimizeRun_frontier] at hne ⊢
  rw [optimizeRun_maxsharpe]
  rcases trackFold_start (frontierPts solver sqrtF df rf wb) with ⟨hfold, hall⟩ |
    ⟨q, hfold, _, l1, l2, hsplit, hbef, haft⟩
  · obtain ⟨x, xs, hcons⟩ := List.exists_cons_of_ne_nil hne
    have hx : x.sharpe = ⊥ := hall x (by rw [hcons]; exact List.mem_cons_self x xs)
    have hxs : ∀ r ∈ xs, r.sharpe = ⊥ :=
      fun r hr => hall r (by rw [hcons]; exact List.mem_cons_of_mem x hr)
    have hidx : idxmaxSharpe (frontierPts solver sqrtF df rf wb) = some x := by
      rw [hcons, idxmaxSharpe_cons]
      exact maxFold_allbot xs x hx hxs
    refine ⟨x, [], xs, ?_, by rw [hcons, List.nil_append], by simp, ?_⟩
    · rw [hfold]
      show (if (frontierPts solver sqrtF df rf wb).isEmpty then none
            else idxmaxSharpe (frontierPts solver sqrtF df rf wb)) = some x
      rw [if_neg]
      · exact hidx
      · rw [hcons]
        simp
    · intro r hr
      rw [hxs r hr, hx]
  · refine ⟨q, l1, l2, ?_, hsplit, hbef, haft⟩
    rw [hfold]

/-- C2: for every successful call with a non-empty frontier, the
returned min-variance portfolio is a frontier point whose risk is
strictly below every earlier frontier point's and at most every later
one's — the globally smallest risk, found by the post-hoc `idxmin` scan
of the assembled frontier (no independent solve). -/
theorem c2_min_variance_global_smallest (solver : QPInput → QPResult) (sqrtF : ℚ → ℚ)
    (df : ReturnsDF) (rf : ℚ) (wb : WeightBounds) (res : OptResult)
    (h : optimize_portfolio solver sqrtF df rf wb = some res)
    (hne : res.efficient_frontier ≠ []) :
    ∃ p l1 l2, res.min_variance_portfolio = some p ∧
      res.efficient_frontier = l1 ++ p :: l2 ∧
      (∀ q ∈ l1, p.risk < q.risk) ∧
      (∀ q ∈ l2, p.risk ≤ q.risk) := by
  have hres := optimize_portfolio_some solver sqrtF df rf wb res h
  subst hres
  rw [optimizeRun_frontier] at hne ⊢
  rw [optimizeRun_minvar]
  obtain ⟨x, xs, hcons⟩ := List.exists_cons_of_ne_nil hne
  rw [hcons, if_neg (by simp), idxminRisk_cons]
  obtain ⟨q, hfold, _, l1, l2, hsplit, hbef, haft⟩ := minFold_seed xs x
  exact ⟨q, l1, l2, hfold, hsplit, hbef, haft⟩

/-- C9: for every call that passes the input check, each distinguished
portfolio is reported absent exactly when the frontier is empty: with
zero feasible points both are `none`, and with a non-empty frontier both
are present (the post-hoc `idxmax` fallback fills in max-Sharpe even
when the incremental tracking never fired). -/
theorem c9_absent_iff_frontier_empty (solver : QPInput → QPResult) (sqrtF : ℚ → ℚ)
    (df : ReturnsDF) (rf : ℚ) (wb : WeightBounds) (res : OptResult)
    (h : optimize_portfolio solver sqrtF df rf wb = some res) :
    (res.max_sharpe_portfolio = none ↔ res.efficient_frontier = []) ∧
    (res.min_variance_portfolio = none ↔ res.efficient_frontier = []) := by
  have hres := optimize_portfolio_some solver sqrtF df rf wb res h
  subst hres
  rw [optimizeRun_frontier, optimizeRun_maxsharpe, optimizeRun_minvar]
  rcases hfp : frontierPts solver sqrtF df rf wb with _ | ⟨x, xs⟩
  · simp
  · have hmain : (match (((x :: xs).foldl trackStep (none, ⊥))).1 with
        | some p => some p
        | none => if (x :: xs).isEmpty then none else idxmaxSharpe (x :: xs)) ≠ none := by
      rcases trackFold_start (x :: xs) with ⟨hfold, hall⟩ | ⟨q, hfold, _, _, _, _, _, _⟩
      · rw [hfold]
        show (if (x :: xs).isEmpty then none else idxmaxSharpe (x :: xs)) ≠ none
        rw [if_neg (by simp), idxmaxSharpe_cons,
          maxFold_allbot xs x (hall x (List.mem_cons_self x xs))
            (fun r hr => hall r (List.mem_cons_of_mem x hr))]
        simp
      · rw [hfold]
        simp
    have hminv : (if (x :: xs).isEmpty then none else idxminRisk (x :: xs)) ≠ none := by
      rw [if_neg (by simp), idxminRisk_cons]
      obtain ⟨q, hfold, _, _, _, _, _, _⟩ := minFold_seed xs x
      rw [hfold]
      simp
    exact ⟨⟨fun hc => absurd hc hmain, fun hc => absurd hc (by simp)⟩,
      ⟨fun hc => absurd hc hminv, fun hc => absurd hc (by simp)⟩⟩

theorem mkFrontierPoint_spec (mu : List ℚ) (sigma : List (List ℚ)) (rf : ℚ)
    (sqrtF : ℚ → ℚ) (x : List ℚ) :
    (mkFrontierPoint mu sigma rf sqrtF x).ret = dot x mu ∧
    (mkFrontierPoint mu sigma rf sqrtF x).risk = sqrtF (quadForm sigma x) ∧
    (mkFrontierPoint mu sigma rf sqrtF x).weights = x ∧
    (mkFrontierPoint mu sigma rf sqrtF x).sharpe
      = (if 0 < sqrtF (quadForm sigma x)
         then (((dot x mu - rf) / sqrtF (quadForm sigma x) : ℚ) : WithBot ℚ) else ⊥) :=
  ⟨rfl, rfl, rfl, rfl⟩

/-- C8: every feasible frontier point records return `wᵀμ`, risk
`sqrt(wᵀΣw)` (with `np.sqrt` as the black-box `sqrtF`), and a guarded
Sharpe ratio: `(return - risk_free_rate) / risk` when the risk is
strictly positive, and `-inf` (modelled `⊥`) when the risk is exactly
zero — the division is never performed with a zero denominator. -/
theorem c8_frontier_point_formulas (solver : QPInput → QPResult) (sqrtF : ℚ → ℚ)
    (df : ReturnsDF) (rf : ℚ) (wb : WeightBounds) (res : OptResult)
    (h : optimize_portfolio solver sqrtF df rf wb = some res) :
    ∀ p ∈ res.efficient_frontier,
      p.ret = dot p.weights (meanVec df) ∧
      p.risk = sqrtF (quadForm (covMat df) p.weights) ∧
      (0 < p.risk → p.sharpe = (((p.ret - rf) / p.risk : ℚ) : WithBot ℚ)) ∧
      (p.risk = 0 → p.sharpe = ⊥) := by
  have hres := optimize_portfolio_some solver sqrtF df rf wb res h
  subst hres
  rw [optimizeRun_frontier]
  intro p hp
  unfold frontierPts at hp
  obtain ⟨t, _ht, hpt⟩ := List.mem_filterMap.mp hp
  unfold pointOf at hpt
  rcases hsv : solver (qpFor (covMat df) (meanVec df)
      (resolveBounds (meanVec df).length wb).1
      (resolveBounds (meanVec df).length wb).2.1 (meanVec df).length t) with x | _ | _ <;>
    rw [hsv] at hpt
  · injection hpt with hpt1
    subst hpt1
    obtain ⟨h1, h2, h3, h4⟩ := mkFrontierPoint_spec (meanVec df) (covMat df) rf sqrtF x
    rw [h1, h2, h3, h4]
    refine ⟨rfl, rfl, ?_, ?_⟩
    · intro hrisk
      rw [if_pos hrisk]
    · intro hzero
      rw [hzero]
      simp
  · exact absurd hpt (by simp)
  · exact absurd hpt (by simp)

theorem sweepTargets_getD (df : ReturnsDF) (i : ℕ) (hi : i < 100) :
    (sweepTargets df).getD i 0
      = listMin (meanVec df)
        + (listMax (meanVec df) - listMin (meanVec df)) * i / 99 := by
  unfold sweepTargets linspace
  rw [List.getD_eq_getElem?_getD, List.getElem?_map, List.getElem?_range hi]
  norm_num

/-- C3: the optimizer sweeps exactly 100 equally spaced target returns
from `min(mu)` to `max(mu)` inclusive; each target contributes at most
one point (one QP solve, silently skipped on a non-optimal status or a
`ValueError`), so the assembled frontier is the in-order `filterMap` of
the per-target outcomes and has at most 100 points. -/
theorem c3_sweep_exactly_100_targets (solver : QPInput → QPResult) (sqrtF : ℚ → ℚ)
    (df : ReturnsDF) (rf : ℚ) (wb : WeightBounds) (res : OptResult)
    (h : optimize_portfolio solver sqrtF df rf wb = some res) :
    (sweepTargets df).length = 100 ∧
    (sweepTargets df).getD 0 0 = listMin (meanVec df) ∧
    (sweepTargets df).getD 99 0 = listMax (meanVec df) ∧
    (∀ i, i + 1 < 100 →
      (sweepTargets df).getD (i + 1) 0 - (sweepTargets df).getD i 0
        = (listMax (meanVec df) - listMin (meanVec df)) / 99) ∧
    res.efficient_frontier
      = (sweepTargets df).filterMap
          (pointOf solver sqrtF (meanVec df) (covMat df)
            (resolveBounds (meanVec df).length wb).1
            (resolveBounds (meanVec df).length wb).2.1 (meanVec df).length rf) ∧
    res.efficient_frontier.length ≤ 100 := by
  have hres := optimize_portfolio_some solver sqrtF df rf wb res h
  subst hres
  have hlen : (sweepTargets df).length = 100 := by
    simp [sweepTargets, linspace]
  refine ⟨hlen, ?_, ?_, ?_, ?_, ?_⟩
  · rw [sweepTargets_getD df 0 (by norm_num)]
    norm_num
  · rw [sweepTargets_getD df 99 (by norm_num)]
    field_simp
  · intro i hi
    rw [sweepTargets_getD df (i + 1) hi, sweepTargets_getD df i (by omega)]
    push_cast
    field_simp
    ring
  · rw [optimizeRun_frontier]
    rfl
  · rw [optimizeRun_frontier]
    unfold frontierPts
    exact le_trans (List.length_filterMap_le _ _) (le_of_eq hlen)

theorem filterMap_some_ne_nil (g : ℚ → PPoint) (l : List ℚ) (hl : l ≠ []) :
    l.filterMap (fun t => some (g t)) ≠ [] := by
  cases l with
  | nil => exact absurd rfl hl
  | cons x xs => simp [List.filterMap_cons]

theorem sweepTargets_ne_nil (df : ReturnsDF) : sweepTargets df ≠ [] := by
  simp [sweepTargets, linspace]

theorem frontierPts_oracle_ne_nil (x0 : List ℚ) (sqrtF : ℚ → ℚ) (df : ReturnsDF)
    (rf : ℚ) (wb : WeightBounds) :
    frontierPts (fun _ => QPResult.optimal x0) sqrtF df rf wb ≠ [] := by
  show (sweepTargets df).filterMap
      (fun _t => some (mkFrontierPoint (meanVec df) (covMat df) rf sqrtF x0)) ≠ []
  exact filterMap_some_ne_nil _ _ (sweepTargets_ne_nil df)

theorem optimize_portfolio_ex_eq :
    optimize_portfolio (fun _ => QPResult.optimal [1]) id ⟨1, [[0], [2]]⟩ 0
        (WeightBounds.tup [0, 1])
      = some (optimizeRun (fun _ => QPResult.optimal [1]) id ⟨1, [[0], [2]]⟩ 0
          (WeightBounds.tup [0, 1])) := by
  unfold optimize_portfolio
  rw [if_neg (by decide)]

theorem frontier_ex_ne_nil :
    (optimizeRun (fun _ => QPResult.optimal [1]) id ⟨1, [[0], [2]]⟩ 0
        (WeightBounds.tup [0, 1])).efficient_frontier ≠ [] := by
  rw [optimizeRun_frontier]
  exact frontierPts_oracle_ne_nil [1] id ⟨1, [[0], [2]]⟩ 0 (WeightBounds.tup [0, 1])

theorem c1_witness :
    optimize_portfolio (fun _ => QPResult.optimal [1]) id ⟨1, [[0], [2]]⟩ 0
        (WeightBounds.tup [0, 1])
      = some (optimizeRun (fun _ => QPResult.optimal [1]) id ⟨1, [[0], [2]]⟩ 0
          (WeightBounds.tup [0, 1])) ∧
    (optimizeRun (fun _ => QPResult.optimal [1]) id ⟨1, [[0], [2]]⟩ 0
        (WeightBounds.tup [0, 1])).efficient_frontier ≠ [] ∧
    (∃ p l1 l2,
      (optimizeRun (fun _ => QPResult.optimal [1]) id ⟨1, [[0], [2]]⟩ 0
          (WeightBounds.tup [0, 1])).max_sharpe_portfolio = some p ∧
      (optimizeRun (fun _ => QPResult.optimal [1]) id ⟨1, [[0], [2]]⟩ 0
          (WeightBounds.tup [0, 1])).efficient_frontier = l1 ++ p :: l2 ∧
      (∀ q ∈ l1, q.sharpe < p.sharpe) ∧
      (∀ q ∈ l2, q.sharpe ≤ p.sharpe)) :=
  ⟨optimize_portfolio_ex_eq, frontier_ex_ne_nil,
    c1_max_sharpe_global_first_seen (fun _ => QPResult.optimal [1]) id ⟨1, [[0], [2]]⟩ 0
      (WeightBounds.tup [0, 1]) _ optimize_portfolio_ex_eq frontier_ex_ne_nil⟩

theorem c2_witness :
    optimize_portfolio (fun _ => QPResult.optimal [1]) id ⟨1, [[0], [2]]⟩ 0
        (WeightBounds.tup [0, 1])
      = some (optimizeRun (fun _ => QPResult.optimal [1]) id ⟨1, [[0], [2]]⟩ 0
          (WeightBounds.tup [0, 1])) ∧
    (optimizeRun (fun _ => QPResult.optimal [1]) id ⟨1, [[0], [2]]⟩ 0
        (WeightBounds.tup [0, 1])).efficient_frontier ≠ [] ∧
    (∃ p l1 l2,
      (optimizeRun (fun _ => QPResult.optimal [1]) id ⟨1, [[0], [2]]⟩ 0
          (WeightBounds.tup [0, 1])).min_variance_portfolio = some p ∧
      (optimizeRun (fun _ => QPResult.optimal [1]) id ⟨1, [[0], [2]]⟩ 0
          (WeightBounds.tup [0, 1])).efficient_frontier = l1 ++ p :: l2 ∧
      (∀ q ∈ l1, p.risk < q.risk) ∧
      (∀ q ∈ l2, p.risk ≤ q.risk)) :=
  ⟨optimize_portfolio_ex_eq, frontier_ex_ne_nil,
    c2_min_variance_global_smallest (fun _ => QPResult.optimal [1]) id ⟨1, [[0], [2]]⟩ 0
      (WeightBounds.tup [0, 1]) _ optimize_portfolio_ex_eq frontier_ex_ne_nil⟩

theorem c3_witness :
    optimize_portfolio (fun _ => QPResult.optimal [1]) id ⟨1, [[0], [2]]⟩ 0
        (WeightBounds.tup [0, 1])
      = some (optimizeRun (fun _ => QPResult.optimal [1]) id ⟨1, [[0], [2]]⟩ 0
          (WeightBounds.tup [0, 1])) ∧
    ((sweepTargets ⟨1, [[0], [2]]⟩).length = 100 ∧
      (sweepTargets ⟨1, [[0], [2]]⟩).getD 0 0 = listMin (meanVec ⟨1, [[0], [2]]⟩) ∧
      (sweepTargets ⟨1, [[0], [2]]⟩).getD 99 0 = listMax (meanVec ⟨1, [[0], [2]]⟩) ∧
      (∀ i, i + 1 < 100 →
        (sweepTargets ⟨1, [[0], [2]]⟩).getD (i + 1) 0
            - (sweepTargets ⟨1, [[0], [2]]⟩).getD i 0
          = (listMax (meanVec ⟨1, [[0], [2]]⟩) - listMin (meanVec ⟨1, [[0], [2]]⟩)) / 99) ∧
      (optimizeRun (fun _ => QPResult.optimal [1]) id ⟨1, [[0], [2]]⟩ 0
          (WeightBounds.tup [0, 1])).efficient_frontier
        = (sweepTargets ⟨1, [[0], [2]]⟩).filterMap
            (pointOf (fun _ => QPResult.optimal [1]) id (meanVec ⟨1, [[0], [2]]⟩)
              (covMat ⟨1, [[0], [2]]⟩)
              (resolveBounds (meanVec ⟨1, [[0], [2]]⟩).length (WeightBounds.tup [0, 1])).1
              (resolveBounds (meanVec ⟨1, [[0], [2]]⟩).length (WeightBounds.tup [0, 1])).2.1
              (meanVec ⟨1, [[0], [2]]⟩).length 0) ∧
      (optimizeRun (fun _ => QPResult.optimal [1]) id ⟨1, [[0], [2]]⟩ 0
          (WeightBounds.tup [0, 1])).efficient_frontier.length ≤ 100) :=
  ⟨optimize_portfolio_ex_eq,
    c3_sweep_exactly_100_targets (fun _ => QPResult.optimal [1]) id ⟨1, [[0], [2]]⟩ 0
      (WeightBounds.tup [0, 1]) _ optimize_portfolio_ex_eq⟩

theorem c8_witness :
    optimize_portfolio (fun _ => QPResult.optimal [1]) id ⟨1, [[0], [2]]⟩ 0
        (WeightBounds.tup [0, 1])
      = some (optimizeRun (fun _ => QPResult.optimal [1]) id ⟨1, [[0], [2]]⟩ 0
          (WeightBounds.tup [0, 1])) ∧
    (∀ p ∈ (optimizeRun (fun _ => QPResult.optimal [1]) id ⟨1, [[0], [2]]⟩ 0
        (WeightBounds.tup [0, 1])).efficient_frontier,
      p.ret = dot p.weights (meanVec ⟨1, [[0], [2]]⟩) ∧
      p.risk = id (quadForm (covMat ⟨1, [[0], [2]]⟩) p.weights) ∧
      (0 < p.risk → p.sharpe = (((p.ret - 0) / p.risk : ℚ) : WithBot ℚ)) ∧
      (p.risk = 0 → p.sharpe = ⊥)) :=
  ⟨optimize_portfolio_ex_eq,
    c8_frontier_point_formulas (fun _ => QPResult.optimal [1]) id ⟨1, [[0], [2]]⟩ 0
      (WeightBounds.tup [0, 1]) _ optimize_portfolio_ex_eq⟩

theorem c9_witness :
    optimize_portfolio (fun _ => QPResult.optimal [1]) id ⟨1, [[0], [2]]⟩ 0
        (WeightBounds.tup [0, 1])
      = some (optimizeRun (fun _ => QPResult.optimal [1]) id ⟨1, [[0], [2]]⟩ 0
          (WeightBounds.tup [0, 1])) ∧
    (((optimizeRun (fun _ => QPResult.optimal [1]) id ⟨1, [[0], [2]]⟩ 0
          (WeightBounds.tup [0, 1])).max_sharpe_portfolio = none
        ↔ (optimizeRun (fun _ => QPResult.optimal [1]) id ⟨1, [[0], [2]]⟩ 0
            (WeightBounds.tup [0, 1])).efficient_frontier = []) ∧
      ((optimizeRun (fun _ => QPResult.optimal [1]) id ⟨1, [[0], [2]]⟩ 0
          (WeightBounds.tup [0, 1])).min_variance_portfolio = none
        ↔ (optimizeRun (fun _ => QPResult.optimal [1]) id ⟨1, [[0], [2]]⟩ 0
            (WeightBounds.tup [0, 1])).efficient_frontier = [])) :=
  ⟨optimize_portfolio_ex_eq,
    c9_absent_iff_frontier_empty (fun _ => QPResult.optimal [1]) id ⟨1, [[0], [2]]⟩ 0
      (WeightBounds.tup [0, 1]) _ optimize_portfolio_ex_eq⟩

/-- C4 counterexample: called with `num_portfolios = 0` over one asset
and matching dimensions, the generator produces no table at all — the
per-asset indexing `weights_per_asset[0]` of line 70 is out of bounds
for the empty transpose (`IndexError` at runtime, `none` in the model) —
contradicting the claim that the output table has exactly `n = 0` rows. -/
theorem c4_counterexample :
    return_portfolios (fun _ => [1]) id (ExpRet.arr [1]) ⟨1, 1, [[1]]⟩ 0 = none := by
  rfl

theorem ExpRet.names_length (er : ExpRet) : er.names.length = er.vals.length := by
  cases er <;> simp [ExpRet.names, ExpRet.vals]

theorem normalizeW_length (d : List ℚ) : (normalizeW d).length = d.length := by
  simp [normalizeW]

theorem transposeQ_cons_length (r : List ℚ) (rest : List (List ℚ)) :
    (transposeQ (r :: rest)).length = r.length := by
  simp [transposeQ]

theorem transposeQ_cons_getD (r : List ℚ) (rest : List (List ℚ)) (j : ℕ)
    (hj : j < r.length) :
    (transposeQ (r :: rest)).getD j [] = (r :: rest).map (fun row => row.getD j 0) := by
  unfold transposeQ
  rw [List.getD_eq_getElem?_getD, List.getElem?_map, List.getElem?_range hj]
  rfl

theorem return_portfolios_eval (rand : ℕ → List ℚ) (sqrtF : ℚ → ℚ) (er : ExpRet)
    (cov : MatQ) (n : ℕ)
    (hcov : (cov.nrows, cov.ncols) = (er.vals.length, er.vals.length))
    (hlen0 : (transposeQ ((List.range n).map (fun i => normalizeW (rand i)))).length
        = er.vals.length) :
    return_portfolios rand sqrtF er cov n
      = some (("Returns",
            ((List.range n).map (fun i => normalizeW (rand i))).map (fun w => dot w er.vals))
          :: ("Volatility",
            ((List.range n).map (fun i => normalizeW (rand i))).map
              (fun w => sqrtF (quadForm cov.data w)))
          :: er.names.enum.map (fun p => (p.2 ++ "Weight",
              (transposeQ ((List.range n).map (fun i => normalizeW (rand i)))).getD p.1 []))) := by
  simp only [return_portfolios]
  rw [if_neg (not_not_intro hcov), if_neg]
  rw [ExpRet.names_length, ← hlen0]
  exact lt_irrefl _

/-- C4 (amended): for every generator call with matching dimensions and
`num_portfolios = n ≥ 1` (n = 0 crashes, see the counterexample), with
every uniform draw having positive sum (C10's precondition), the output
table has exactly `n` rows and the columns `Returns`, `Volatility`, then
one `<asset>Weight` column per asset in input order (`k + 2` columns);
in every row the weights are non-negative and sum to 1, the row's return
equals `wᵀμ` and its volatility equals `sqrt(wᵀΣw)` for the row's own
weights. -/
theorem c4_generator_table_shape (rand : ℕ → List ℚ) (sqrtF : ℚ → ℚ) (er : ExpRet)
    (cov : MatQ) (n : ℕ)
    (hn : 1 ≤ n)
    (hcov : (cov.nrows, cov.ncols) = (er.vals.length, er.vals.length))
    (hlen : ∀ i, i < n → (rand i).length = er.vals.length)
    (hpos : ∀ i, i < n → (∀ x ∈ rand i, 0 ≤ x) ∧ 0 < (rand i).sum) :
    ∃ t, return_portfolios rand sqrtF er cov n = some t ∧
      t.map Prod.fst = "Returns" :: "Volatility" :: er.names.map (fun s => s ++ "Weight") ∧
      t.length = er.vals.length + 2 ∧
      (∀ c ∈ t, c.2.length = n) ∧
      (∀ i, i < n →
        (∀ x ∈ normalizeW (rand i), 0 ≤ x) ∧
        (normalizeW (rand i)).sum = 1 ∧
        (t.getD 0 ("", [])).2.getD i 0 = dot (normalizeW (rand i)) er.vals ∧
        (t.getD 1 ("", [])).2.getD i 0 = sqrtF (quadForm cov.data (normalizeW (rand i))) ∧
        (∀ j, j < er.vals.length →
          (t.getD (j + 2) ("", [])).2.getD i 0 = (rand i).getD j 0 / (rand i).sum)) := by
  obtain ⟨m, rfl⟩ : ∃ m, n = m + 1 := ⟨n - 1, by omega⟩
  have hws : (List.range (m + 1)).map (fun i => normalizeW (rand i))
      = normalizeW (rand 0)
        :: ((List.range m).map Nat.succ).map (fun i => normalizeW (rand i)) := by
    rw [List.range_succ_eq_map, List.map_cons]
  have hr0 : (normalizeW (rand 0)).length = er.vals.length := by
    rw [normalizeW_length]
    exact hlen 0 (by omega)
  have htlen : (transposeQ ((List.range (m + 1)).map (fun i => normalizeW (rand i)))).length
      = er.vals.length := by
    rw [hws, transposeQ_cons_length, hr0]
  refine ⟨_, return_portfolios_eval rand sqrtF er cov (m + 1) hcov htlen, ?_, ?_, ?_, ?_⟩
  · simp only [List.map_cons]
    refine congrArg (List.cons _) (congrArg (List.cons _) ?_)
    rw [List.map_map]
    have hcomp : (Prod.fst ∘ fun p : ℕ × String =>
        (p.2 ++ "Weight",
          (transposeQ ((List.range (m + 1)).map (fun i => normalizeW (rand i)))).getD p.1 []))
        = (fun s => s ++ "Weight") ∘ Prod.snd := rfl
    rw [hcomp, ← List.map_map, List.enum_map_snd]
  · simp only [List.length_cons, List.length_map, List.enum_length, ExpRet.names_length]
  · intro c hc
    rcases List.mem_cons.mp hc with rfl | hc2
    · simp
    rcases List.mem_cons.mp hc2 with rfl | hc3
    · simp
    obtain ⟨p, hp, rfl⟩ := List.mem_map.mp hc3
    have hj : p.1 < er.names.length := by
      have h1 := List.mem_enum_iff_getElem?.mp hp
      exact (List.getElem?_eq_some.mp h1).1
    have hjk : p.1 < (normalizeW (rand 0)).length := by
      rw [hr0, ← ExpRet.names_length]
      exact hj
    show ((transposeQ ((List.range (m + 1)).map
        (fun i => normalizeW (rand i)))).getD p.1 []).length = m + 1
    rw [hws, transposeQ_cons_getD _ _ _ hjk, ← hws]
    simp
  · intro i hi
    obtain ⟨h0, hs⟩ := hpos i hi
    have hnn : ∀ x ∈ normalizeW (rand i), 0 ≤ x := by
      intro x hx
      rw [normalizeW] at hx
      obtain ⟨y, hy, rfl⟩ := List.mem_map.mp hx
      exact div_nonneg (h0 y hy) (le_of_lt hs)
    have hsum : (normalizeW (rand i)).sum = 1 := by
      rw [normalizeW, sum_map_div]
      exact div_self (ne_of_gt hs)
    refine ⟨hnn, hsum, ?_, ?_, ?_⟩
    · show (((List.range (m + 1)).map (fun i => normalizeW (rand i))).map
          (fun w => dot w er.vals)).getD i 0 = dot (normalizeW (rand i)) er.vals
      rw [List.getD_eq_getElem?_getD, List.getElem?_map, List.getElem?_map,
        List.getElem?_range hi]
      rfl
    · show (((List.range (m + 1)).map (fun i => normalizeW (rand i))).map
          (fun w => sqrtF (quadForm cov.data w))).getD i 0
          = sqrtF (quadForm cov.data (normalizeW (rand i)))
      rw [List.getD_eq_getElem?_getD, List.getElem?_map, List.getElem?_map,
        List.getElem?_range hi]
      rfl
    · intro j hj
      have hjn : j < er.names.length := by
        rw [ExpRet.names_length]
        exact hj
      simp only [show j + 2 = j + 1 + 1 from rfl, List.getD_cons_succ]
      have houter : (er.names.enum.map (fun p => (p.2 ++ "Weight",
          (transposeQ ((List.range (m + 1)).map
            (fun i2 => normalizeW (rand i2)))).getD p.1 []))).getD j ("", [])
          = (er.names.get ⟨j, hjn⟩ ++ "Weight",
            (transposeQ ((List.range (m + 1)).map
              (fun i2 => normalizeW (rand i2)))).getD j []) := by
        rw [List.getD_eq_getElem?_getD, List.getElem?_map, List.getElem?_enum,
          List.getElem?_eq_getElem hjn]
        rfl
      rw [houter]
      show ((transposeQ ((List.range (m + 1)).map
          (fun i2 => normalizeW (rand i2)))).getD j []).getD i 0
          = (rand i).getD j 0 / (rand i).sum
      have hjr : j < (normalizeW (rand 0)).length := by
        rw [hr0]
        exact hj
      rw [hws, transposeQ_cons_getD _ _ _ hjr, ← hws]
      rw [List.getD_eq_getElem?_getD, List.getElem?_map, List.getElem?_map,
        List.getElem?_range hi]
      simp only [Option.map_some', Option.getD_some]
      have hjri : j < (rand i).length := by
        rw [hlen i hi]
        exact hj
      rw [normalizeW, List.getD_eq_getElem?_getD, List.getElem?_map,
        List.getElem?_eq_getElem hjri]
      simp only [Option.map_some', Option.getD_some]
      rw [List.getD_eq_getElem?_getD, List.getElem?_eq_getElem hjri]
      rfl

theorem c4_witness :
    1 ≤ 1 ∧
    (((⟨1, 1, [[1]]⟩ : MatQ).nrows, (⟨1, 1, [[1]]⟩ : MatQ).ncols)
      = ((ExpRet.arr [1]).vals.length, (ExpRet.arr [1]).vals.length)) ∧
    (∀ i, i < 1 → (([1] : List ℚ)).length = (ExpRet.arr [1]).vals.length) ∧
    (∀ i, i < 1 → (∀ x ∈ ([1] : List ℚ), 0 ≤ x) ∧ 0 < ([1] : List ℚ).sum) ∧
    (∃ t, return_portfolios (fun _ => [1]) id (ExpRet.arr [1]) ⟨1, 1, [[1]]⟩ 1 = some t ∧
      t.map Prod.fst
        = "Returns" :: "Volatility" :: (ExpRet.arr [1]).names.map (fun s => s ++ "Weight") ∧
      t.length = (ExpRet.arr [1]).vals.length + 2 ∧
      (∀ c ∈ t, c.2.length = 1) ∧
      (∀ i, i < 1 →
        (∀ x ∈ normalizeW ([1] : List ℚ), 0 ≤ x) ∧
        (normalizeW ([1] : List ℚ)).sum = 1 ∧
        (t.getD 0 ("", [])).2.getD i 0 = dot (normalizeW ([1] : List ℚ)) (ExpRet.arr [1]).vals ∧
        (t.getD 1 ("", [])).2.getD i 0
          = id (quadForm (⟨1, 1, [[1]]⟩ : MatQ).data (normalizeW ([1] : List ℚ))) ∧
        (∀ j, j < (ExpRet.arr [1]).vals.length →
          (t.getD (j + 2) ("", [])).2.getD i 0
            = ([1] : List ℚ).getD j 0 / ([1] : List ℚ).sum))) := by
  refine ⟨le_refl 1, by decide, by decide, ?_, ?_⟩
  · intro i hi
    exact ⟨by decide, by simp⟩
  · refine c4_generator_table_shape (fun _ => [1]) id (ExpRet.arr [1]) ⟨1, 1, [[1]]⟩ 1
      (le_refl 1) (by decide) (by decide) ?_
    intro i hi
    constructor
    · show ∀ x ∈ ([1] : List ℚ), 0 ≤ x
      decide
    · show 0 < ([1] : List ℚ).sum
      simp
